import Mathlib

/-! Shallow embedding of the infratest flow runner (Go) and proofs about it.

Sources embedded here:
* `internal/inventory` (src/unnamed/part_005): resource pattern matcher.
* `internal/terraform` output-path resolution (src/unnamed/part_007).
* `internal/flow/interpolator/interpolator.go`: `${output.PATH}` interpolation.
* `internal/flow/executor.go`: step scheduler and step handlers.
* `internal/flow/cleanup.go`: cleanup pass (`RunCleanup`).
* `internal/flow/parser.go` (+ `path/filepath` helpers it calls).
* `internal/http` (appended to src/main.go): `CheckWithRetry`.

Modelling conventions:
* Go's dynamic `interface{}` values (decoded from JSON/YAML) are the closed
  algebraic type `GoVal` below: string, float64 (modelled as an exact `Rat`;
  none of the verified properties depend on binary-float rounding), int,
  bool, array, object (association list; Go maps have unique keys), nil.
* External effects (running terraform, reading state, HTTP requests, wall
  clock) are supplied by explicit environment records; the embedded control
  flow is translated from the Go source.
* `fmt.Sprintf("%v", ·)` is modelled by `goSprint`; Go sorts map keys when
  printing, which `goSprint` mirrors with an insertion sort.
-/

/-- JSON/YAML-like dynamic value (`interface{}` after decoding in Go). -/
inductive GoVal where
  | str (s : String)
  | float (q : Rat)
  | int (n : Int)
  | bool (b : Bool)
  | arr (xs : List GoVal)
  | obj (kvs : List (String × GoVal))
  | null
deriving Inhabited

-- Depth of a `GoVal`, used as recursion fuel for the printers.
mutual

def goValDepth : GoVal → Nat
  | .arr xs => goValListDepth xs + 1
  | .obj kvs => goValKVDepth kvs + 1
  | _ => 1

def goValListDepth : List GoVal → Nat
  | [] => 0
  | x :: xs => max (goValDepth x) (goValListDepth xs)

def goValKVDepth : List (String × GoVal) → Nat
  | [] => 0
  | kv :: xs => max (goValDepth kv.2) (goValKVDepth xs)

end

/-- Render a rational that stands for a float64 the way Go prints it:
integral values without a decimal point, finite decimal fractions with the
minimal number of digits. (Values whose denominator is not of the form
`2^a * 5^b` are not exact float64s; they get a fallback rendering.) -/
def ratRender (q : Rat) : String :=
  if q.den == 1 then toString q.num
  else
    match (List.range 41).find? (fun k => 10 ^ k % q.den == 0) with
    | some k =>
      let sign := if q.num < 0 then "-" else ""
      let scaled := q.num.natAbs * 10 ^ k / q.den
      let ip := scaled / 10 ^ k
      let fp := scaled % 10 ^ k
      let fpStr := toString fp
      let pad := String.mk (List.replicate (k - fpStr.length) '0')
      sign ++ toString ip ++ "." ++ pad ++ fpStr
    | none => toString q.num ++ "/" ++ toString q.den

/-- Insert a key/value pair into a key-sorted list (Go's `fmt` prints map
keys in sorted order). -/
def insertByKey (p : String × GoVal) : List (String × GoVal) → List (String × GoVal)
  | [] => [p]
  | q :: qs => if p.1 ≤ q.1 then p :: q :: qs else q :: insertByKey p qs

def sortByKey : List (String × GoVal) → List (String × GoVal)
  | [] => []
  | p :: ps => insertByKey p (sortByKey ps)

/-- Go `fmt.Sprintf("%v", v)` for a `GoVal`, with recursion fuel. -/
def goSprintF : Nat → GoVal → String
  | 0, _ => ""
  | _ + 1, .str s => s
  | _ + 1, .float q => ratRender q
  | _ + 1, .int n => toString n
  | _ + 1, .bool b => if b then "true" else "false"
  | fuel + 1, .arr xs => "[" ++ " ".intercalate (xs.map (goSprintF fuel)) ++ "]"
  | fuel + 1, .obj kvs =>
      "map[" ++ " ".intercalate ((sortByKey kvs).map
        (fun kv => kv.1 ++ ":" ++ goSprintF fuel kv.2)) ++ "]"
  | _ + 1, .null => "<nil>"

/-- Go `fmt.Sprintf("%v", v)`. -/
def goSprint (v : GoVal) : String := goSprintF (goValDepth v) v

/-- Go `strings.Split(s, sep)` for a one-character separator (structurally
recursive so that proofs can evaluate it). -/
def goSplitAux (sep : Char) : List Char → List Char → List String
  | [], acc => [String.mk acc.reverse]
  | c :: rest, acc =>
    if c == sep then String.mk acc.reverse :: goSplitAux sep rest []
    else goSplitAux sep rest (c :: acc)

def goSplit (sep : Char) (s : String) : List String := goSplitAux sep s.data []

namespace inventory

/-- Go `inventory.Resource`: a terraform resource from state. -/
structure Resource where
  type : String
  name : String
  address : String
  id : String
  attributes : List (String × GoVal)

/-- Go `inventory.ResourceMatch`: a resource match pattern. -/
structure ResourceMatch where
  type : String
  name : String
  count : Option Int := none
  minCount : Option Int := none
  maxCount : Option Int := none
  attributes : List (String × GoVal) := []

/-- Go `inventory.MatchedResource`. -/
structure MatchedResource where
  type : String
  name : String
  id : String
  address : String
  attributes : List (String × GoVal)

/-- Go `inventory.AttributeMismatch`. -/
structure AttributeMismatch where
  resource : String
  attrName : String
  expected : Option GoVal
  actual : Option GoVal

/-- Go `inventory.MatchResult`. -/
structure MatchResult where
  matched : Bool
  count : Int
  resources : List MatchedResource
  issues : List String
  mismatches : List AttributeMismatch

/-- The compiled name pattern: `matchPattern` quotes the pattern with
`regexp.QuoteMeta` and then rewrites every quoted `\*` to `.*`, so each
original `*` becomes "any sequence" and every other character (including
`.`) is literal.  An empty name defaults to the literal text `".*"` BEFORE
quoting, so it compiles to `\..*`: a leading literal dot followed by a
wildcard. This glob matcher implements exactly that anchored regex. -/
def globMatchF : Nat → List Char → List Char → Bool
  | 0, _, _ => true
  | _ + 1, [], [] => true
  | _ + 1, [], _ :: _ => false
  | fuel + 1, '*' :: ps, ns =>
      globMatchF fuel ps ns ||
        (match ns with
         | [] => false
         | _ :: ns' => globMatchF fuel ('*' :: ps) ns')
  | _ + 1, _ :: _, [] => false
  | fuel + 1, p :: ps, n :: ns => p == n && globMatchF fuel ps ns

/-- Every recursive step of the glob matcher shrinks the combined length of
pattern and input, so this fuel is enough and the fuel-0 clause (which then
only sees two empty lists) is accurate. -/
def globMatch (ps ns : List Char) : Bool := globMatchF (ps.length + ns.length) ps ns

/-- Name matching in `matchPattern` (empty pattern defaults to `".*"`,
whose dot is then quoted to a literal). -/
def nameMatches (pattern name : String) : Bool :=
  globMatch (if pattern == "" then ".*".data else pattern.data) name.data

/-- Type matching in `matchPattern`: `^QuoteMeta(type)$` is plain equality. -/
def typeMatches (pattern typ : String) : Bool := pattern == typ

/-- Go `Matcher.getNestedAttribute`: dotted-path descent into the attribute
map; fails when a segment is absent or an intermediate value is not a map. -/
def getNestedAttribute (attrs : List (String × GoVal)) (path : String) :
    Except String GoVal :=
  go attrs (goSplit '.' path) []
where
  go (current : List (String × GoVal)) (parts : List String) (seen : List String) :
      Except String GoVal :=
    match parts with
    | [] => .error "unexpected error"
    | part :: rest =>
      match current.lookup part with
      | none => .error ("attribute not found: " ++ path)
      | some val =>
        match rest with
        | [] => .ok val
        | _ :: _ =>
          match val with
          | .obj next => go next rest (seen ++ [part])
          | _ => .error ("attribute " ++ ".".intercalate (seen ++ [part]) ++ " is not a map")

/-- Go `Matcher.valuesEqual`: type-aware comparison of expected vs actual. -/
def valuesEqual (expected actual : GoVal) : Bool :=
  match expected with
  | .str expStr => expStr == goSprint actual
  | .float expNum =>
    (match actual with
     | .float actNum => expNum == actNum
     | .int actNum => expNum == (actNum : Rat)
     | _ => goSprint expected == goSprint actual)
  | .bool expBool =>
    (match actual with
     | .bool actBool => expBool == actBool
     | _ => goSprint expected == goSprint actual)
  | _ => goSprint expected == goSprint actual

/-- The attribute-validation loop of `matchPattern` for one matched
resource: returns the issue strings and mismatches it appends. -/
def checkAttrs (address : String) (attrs : List (String × GoVal)) :
    List (String × GoVal) → List String × List AttributeMismatch
  | [] => ([], [])
  | (attrPath, expectedVal) :: rest =>
    let (issues, mismatches) :=
      match getNestedAttribute attrs attrPath with
      | .error _ =>
        ([address ++ ": attribute " ++ attrPath ++ " not found"],
         [AttributeMismatch.mk address attrPath (some expectedVal) none])
      | .ok actualVal =>
        if valuesEqual expectedVal actualVal then ([], [])
        else
          ([address ++ ": attribute " ++ attrPath ++ " mismatch - expected " ++
              goSprint expectedVal ++ ", got " ++ goSprint actualVal],
           [AttributeMismatch.mk address attrPath (some expectedVal) (some actualVal)])
    let (issues', mismatches') := checkAttrs address attrs rest
    (issues ++ issues', mismatches ++ mismatches')

/-- Go `Matcher.matchPattern`: select the resources matching the type/name
pattern, report every violated cardinality constraint, then validate the
declared attributes of each selected resource. -/
def matchPattern (resources : List Resource) (m : ResourceMatch) : MatchResult :=
  let matched := resources.filter (fun r => typeMatches m.type r.type && nameMatches m.name r.name)
  let count : Int := matched.length
  let countIssues :=
    (match m.count with
     | some c =>
       if count ≠ c then
         ["expected exactly " ++ toString c ++ " resources, found " ++ toString count]
       else []
     | none => []) ++
    (match m.minCount with
     | some c =>
       if count < c then
         ["expected at least " ++ toString c ++ " resources, found " ++ toString count]
       else []
     | none => []) ++
    (match m.maxCount with
     | some c =>
       if count > c then
         ["expected at most " ++ toString c ++ " resources, found " ++ toString count]
       else []
     | none => [])
  let perResource := matched.map (fun r => (r, checkAttrs r.address r.attributes m.attributes))
  let attrIssues := (perResource.map (fun p => p.2.1)).flatten
  let mismatches := (perResource.map (fun p => p.2.2)).flatten
  let resList := matched.map (fun r => MatchedResource.mk r.type r.name r.id r.address r.attributes)
  let issues := countIssues ++ attrIssues
  { matched :=
      issues.isEmpty &&
      (match m.count with | none => true | some c => count == c) &&
      (match m.minCount with | none => true | some c => count ≥ c) &&
      (match m.maxCount with | none => true | some c => count ≤ c)
    count := count
    resources := resList
    issues := issues
    mismatches := mismatches }

/-- Go `Matcher.Match`: run every pattern of the expectation map (modelled as
an association list; Go map iteration order is arbitrary) and collect the
issues of patterns that did not match. -/
def Match (resources : List Resource) (expected : List (String × ResourceMatch)) :
    List (String × MatchResult) × List String :=
  let results := expected.map (fun p => (p.1, matchPattern resources p.2))
  (results, (results.filterMap (fun p => if p.2.matched then none else some p.2.issues)).flatten)

end inventory

namespace terraform

/-- Terraform outputs snapshot (`map[string]interface{}`); `none` models a
nil Go map, which `GetOutputValue` rejects explicitly. -/
abbrev Outputs := Option (List (String × GoVal))

/-- Go `terraform.findArrayIndex`: position of the first `[` in the path, or
-1. (Go indexes bytes; the embedded strings are ASCII so character and byte
positions coincide.) -/
def findArrayIndexAux : List Char → Nat → Int
  | [], _ => -1
  | c :: cs, i => if c == '[' then (i : Int) else findArrayIndexAux cs (i + 1)

def findArrayIndex (path : String) : Int := findArrayIndexAux path.data 0

/-- Value of a decimal digit run. -/
def digitsVal (ds : List Char) : Int :=
  ds.foldl (fun acc c => acc * 10 + ((c.toNat - 48 : Nat) : Int)) 0

/-- Go `terraform.parseArrayIndex`: extract the index from `"[123]"` via
`fmt.Sscanf("[%d]")`; -1 on any failure.  `%d` skips leading spaces and
accepts a sign; `Sscanf` does not require consuming the whole input, so only
the character right after the digits must be `]` (the whole string must
also end in `]` per the explicit prechecks). -/
def parseArrayIndex (s : String) : Int :=
  let cs := s.data
  if cs.length < 3 then -1
  else if cs.head? ≠ some '[' then -1
  else if cs.getLast? ≠ some ']' then -1
  else
    let body := (cs.drop 1).dropWhile (· == ' ')
    let (neg, body') :=
      match body with
      | '-' :: rest => (true, rest)
      | '+' :: rest => (false, rest)
      | _ => (false, body)
    let digits := body'.takeWhile (·.isDigit)
    let after := body'.dropWhile (·.isDigit)
    if digits.isEmpty then -1
    else if after.head? ≠ some ']' then -1
    else if neg then -(digitsVal digits) else digitsVal digits

/-- Go `terraform.splitPath`: split on dots, dropping empty segments. -/
def splitPath (path : String) : List String :=
  (goSplit '.' path).filter (· ≠ "")

/-- The dot-notation loop of `terraform.GetOutputValue`. -/
def getOutputDots (path : String) : List (String × GoVal) → List String → Except String GoVal
  | _, [] => .error ("unexpected error parsing path: " ++ path)
  | current, part :: rest =>
    match current.lookup part with
    | none => .error ("output path not found: " ++ path ++ " (missing: " ++ part ++ ")")
    | some val =>
      match rest with
      | [] => .ok val
      | _ :: _ =>
        match val with
        | .obj next => getOutputDots path next rest
        | _ => .error ("path " ++ path ++ " is not a map at segment: " ++ part)

/-- Go `terraform.GetOutputValue` with explicit recursion fuel: the recursive
call of the array branch resolves the key BEFORE the first `[`, which
therefore contains no `[` and takes the non-recursive dot branch — the
recursion depth is at most 1, so fuel 2 is always enough and the fuel-0
clause is unreachable. -/
def GetOutputValueF (outputs : Outputs) : Nat → String → Except String GoVal
  | 0, path => .error ("unexpected error parsing path: " ++ path)
  | fuel + 1, path =>
    match outputs with
    | none => .error "outputs map is nil"
    | some omap =>
      if 0 ≤ findArrayIndex path then
        let idx := (findArrayIndex path).toNat
        let key := String.mk (path.data.take idx)
        let index := parseArrayIndex (String.mk (path.data.drop idx))
        if index < 0 then .error ("invalid array index in path: " ++ path)
        else
          match GetOutputValueF outputs fuel key with
          | .error e => .error e
          | .ok val =>
            match val with
            | .arr a =>
              if h2 : index.toNat < a.length then .ok (a.get ⟨index.toNat, h2⟩)
              else .error ("array index " ++ toString index ++ " out of bounds for path " ++
                key ++ " (length: " ++ toString a.length ++ ")")
            | _ => .error ("path " ++ key ++ " is not an array")
      else
        getOutputDots path omap (splitPath path)

/-- Go `terraform.GetOutputValue`: resolve a dotted / array-indexed path
against the outputs snapshot. -/
def GetOutputValue (outputs : Outputs) (path : String) : Except String GoVal :=
  GetOutputValueF outputs 2 path

end terraform

namespace interpolator

/-- The brace characters, named to keep them out of string literals. -/
def lbrace : Char := '\x7b'

def rbrace : Char := '\x7d'

/-- The fixed prefix `"${output."` of the placeholder regex
`\$\{output\.([^}]+)\}`. -/
def placeholderPre : List Char := ['$', '\x7b', 'o', 'u', 't', 'p', 'u', 't', '.']

/-- Try to match the placeholder regex at the head of the character list:
`"${output."` followed by one or more non-`}` characters and a closing `}`.
Returns the captured path and the remainder after the match. -/
def matchPlaceholderAt (cs : List Char) : Option (List Char × List Char) :=
  if placeholderPre.isPrefixOf cs then
    let rest0 := cs.drop placeholderPre.length
    let path := rest0.takeWhile (· ≠ rbrace)
    match rest0.dropWhile (· ≠ rbrace) with
    | _ :: rest => if path.isEmpty then none else some (path, rest)
    | [] => none
  else none

/-- Go `interpolator.formatValue` with recursion fuel (single-element arrays
render as their element; other arrays comma-join; maps print as `%v`). -/
def formatValueF : Nat → GoVal → String
  | 0, _ => ""
  | _ + 1, .str s => s
  | _ + 1, .bool b => if b then "true" else "false"
  | _ + 1, .int n => toString n
  | _ + 1, .float q => ratRender q
  | fuel + 1, .arr xs =>
    (match xs with
     | [x] => formatValueF fuel x
     | _ => ",".intercalate (xs.map (formatValueF fuel)))
  | _ + 1, .obj kvs => goSprint (.obj kvs)
  | _ + 1, .null => "<nil>"

def formatValue (v : GoVal) : String := formatValueF (goValDepth v) v

/-- The scan of `outputRegex.ReplaceAllStringFunc`: leftmost placeholder
matches are replaced by the formatted resolved value; a placeholder whose
path fails to resolve is reproduced verbatim.  Fuel decreases once per
step; each step consumes at least one character, so fuel = input length is
enough. -/
def interpolateAux (outputs : terraform.Outputs) : Nat → List Char → List Char
  | 0, cs => cs
  | _ + 1, [] => []
  | fuel + 1, c :: cs =>
    match matchPlaceholderAt (c :: cs) with
    | some (path, rest) =>
      (match terraform.GetOutputValue outputs (String.mk path) with
       | .ok v => (formatValue v).data
       | .error _ => placeholderPre ++ path ++ [rbrace]) ++ interpolateAux outputs fuel rest
    | none => c :: interpolateAux outputs fuel cs

/-- Go `interpolator.Interpolate`. -/
def Interpolate (template : String) (outputs : terraform.Outputs) : String :=
  String.mk (interpolateAux outputs template.data.length template.data)

/-- Does the placeholder regex match anywhere in the string? -/
def hasPlaceholderAux : List Char → Bool
  | [] => false
  | c :: cs => (matchPlaceholderAt (c :: cs)).isSome || hasPlaceholderAux cs

def hasPlaceholder (s : String) : Bool := hasPlaceholderAux s.data

/-- Every placeholder occurring in the character list has a path that fails
to resolve against `outputs`. -/
def allUnresolved (outputs : terraform.Outputs) : List Char → Bool
  | [] => true
  | c :: cs =>
    (match matchPlaceholderAt (c :: cs) with
     | some (path, _) => !(terraform.GetOutputValue outputs (String.mk path)).isOk
     | none => true) && allUnresolved outputs cs

end interpolator

namespace gotime

/-- Natural value of a decimal digit run. -/
def digitsNat (ds : List Char) : Nat :=
  ds.foldl (fun acc c => acc * 10 + (c.toNat - 48)) 0

/-- Unit table of Go's `time.ParseDuration`, in nanoseconds. -/
def unitMap : String → Option Int
  | "ns" => some 1
  | "us" => some 1000
  | "µs" => some 1000
  | "μs" => some 1000
  | "ms" => some 1000000
  | "s" => some 1000000000
  | "m" => some 60000000000
  | "h" => some 3600000000000
  | _ => none

/-- One pass of `time.ParseDuration`'s term loop: `digits[.digits]unit`
repeated.  The fractional part is scaled exactly (Go scales through float64
and truncates; the embedded claims only use integral durations, where the
two agree).  Fuel decreases once per term; every term consumes at least one
character, so fuel = input length is enough. -/
def parseTermsF (orig : String) : Nat → List Char → Int → Except String Int
  | 0, _, acc => .ok acc
  | _ + 1, [], acc => .ok acc
  | fuel + 1, cs, acc =>
    let intDigits := cs.takeWhile (·.isDigit)
    let rest1 := cs.dropWhile (·.isDigit)
    let hasDot := rest1.head? == some '.'
    let fracDigits := if hasDot then (rest1.drop 1).takeWhile (·.isDigit) else []
    let rest2 := if hasDot then (rest1.drop 1).dropWhile (·.isDigit) else rest1
    if intDigits.isEmpty && fracDigits.isEmpty then
      .error ("time: invalid duration " ++ orig)
    else
      let unitChars := rest2.takeWhile (fun c => !c.isDigit && c ≠ '.')
      let rest3 := rest2.drop unitChars.length
      if unitChars.isEmpty then .error ("time: missing unit in duration " ++ orig)
      else
        match unitMap (String.mk unitChars) with
        | none => .error ("time: unknown unit " ++ String.mk unitChars ++ " in duration " ++ orig)
        | some u =>
          let term : Int := (digitsNat intDigits : Int) * u +
            (if fracDigits.isEmpty then 0
             else ((digitsNat fracDigits : Int) * u) / (10 ^ fracDigits.length : Nat))
          parseTermsF orig fuel rest3 (acc + term)

/-- Go `time.ParseDuration` (nanoseconds), faithful on sign handling, the
`"0"` special case, the empty-string error and the `digits[.digits]unit`
term grammar. -/
def parseDuration (s : String) : Except String Int :=
  let cs := s.data
  let (neg, cs') :=
    match cs with
    | '-' :: rest => (true, rest)
    | '+' :: rest => (false, rest)
    | _ => (false, cs)
  if cs' == ['0'] then .ok 0
  else if cs'.isEmpty then .error ("time: invalid duration " ++ s)
  else
    match parseTermsF s cs'.length cs' 0 with
    | .error e => .error e
    | .ok d => .ok (if neg then -d else d)

end gotime

namespace http

/-- Result of `http.CheckWithRetry`, instrumented with the number of
requests issued and the total nanoseconds spent in `time.Sleep`. -/
structure CheckResult where
  status : Int
  error : Option String
  attempts : Nat
  sleepTotal : Int

/-- The retry loop of `http.CheckWithRetry` (`for i := 0; i <= retries; i++`).
`server url i` is the outcome of the i-th `client.Get(url)`: a transport
error or a status code.  `remaining` counts the loop iterations left and is
initialised to `retries+1`; the loop's own `i < retries` guard governs
retry vs. give-up, exactly as in the source. -/
def checkLoop (server : String → Nat → Except String Int) (url : String)
    (expectedStatus retries delay : Int) :
    Nat → Nat → Nat → Int → Int → Option String → CheckResult
  | _, 0, attempts, sleep, lastStatus, lastErr =>
    { status := lastStatus, error := lastErr, attempts := attempts, sleepTotal := sleep }
  | i, remaining + 1, attempts, sleep, lastStatus, lastErr =>
    match server url i with
    | .error e =>
      if (i : Int) < retries then
        checkLoop server url expectedStatus retries delay (i + 1) remaining
          (attempts + 1) (sleep + delay) lastStatus (some e)
      else
        { status := 0
          error := some ("HTTP check failed after " ++ toString retries ++ " retries: " ++ e)
          attempts := attempts + 1, sleepTotal := sleep }
    | .ok status =>
      if expectedStatus > 0 ∧ status ≠ expectedStatus then
        if (i : Int) < retries then
          checkLoop server url expectedStatus retries delay (i + 1) remaining
            (attempts + 1) (sleep + delay) status lastErr
        else
          { status := status
            error := some ("expected status " ++ toString expectedStatus ++ ", got " ++ toString status)
            attempts := attempts + 1, sleepTotal := sleep }
      else
        { status := status, error := none, attempts := attempts + 1, sleepTotal := sleep }

/-- Go `http.CheckWithRetry(url, expectedStatus, retries, delay, debug)`.
(`debug` only toggles logging and is dropped.) -/
def CheckWithRetry (server : String → Nat → Except String Int) (url : String)
    (expectedStatus retries delay : Int) : CheckResult :=
  checkLoop server url expectedStatus retries delay 0 (retries + 1).toNat 0 0 0 none

end http

namespace terraform

/-- Go `terraform.Resource` (from `state.go`): a managed resource extracted
from `terraform show -json`. -/
structure Resource where
  type : String
  id : String
  name : String

/-- Go `State.GetResourcesByType` over the already-extracted managed-resource
list (`State.GetResources`). -/
def GetResourcesByType (resources : List Resource) (resourceType : String) : List Resource :=
  resources.filter (fun r => r.type == resourceType)

end terraform

namespace flow

/-- Go `flow.ExpectedResource` (legacy inventory format). -/
structure ExpectedResource where
  type : String
  minCount : Int := 0
  maxCount : Int := 0

/-- Go `flow.ExpectedResources`. -/
structure ExpectedResources where
  resources : List ExpectedResource

/-- Go `flow.ResourceMatchConfig` (advanced inventory format). -/
structure ResourceMatchConfig where
  count : Option Int := none
  minCount : Option Int := none
  maxCount : Option Int := none
  attributes : List (String × GoVal) := []

/-- Go `flow.Step`. -/
structure Step where
  name : String
  type : String
  after : String := ""
  when : String := ""
  command : String := ""
  commands : List String := []
  expected : Option ExpectedResources := none
  failOnExtra : Bool := false
  failOnMissing : Bool := false
  expectedResources : List (String × ResourceMatchConfig) := []
  url : String := ""
  expectedStatus : Int := 0
  retries : Int := 0
  delay : String := ""

/-- Go `flow.Environment`. -/
structure Environment where
  provider : String := ""

/-- Go `flow.Reporting`. -/
structure Reporting where
  output : String := ""
  formats : List String := []

/-- Go `flow.Flow`. -/
structure Flow where
  name : String
  description : String := ""
  workingDir : String
  environment : Environment := {}
  steps : List Step
  reporting : Reporting := {}

/-- Go `flow.Resource` (observed resource recorded in a StepResult). -/
structure Resource where
  type : String
  id : String

/-- Go `flow.StepResult`.  The wall-clock `Duration` field is not modelled
(claims do not mention it); everything else is. -/
structure StepResult where
  stepName : String
  stepType : String
  success : Bool
  output : String := ""
  error : Option String := none
  resources : List Resource := []
  httpStatus : Int := 0

/-- External-world collaborators of the executor.  Each field is the
outcome of one effectful call of the Go code; the control flow around them
is translated from the source. -/
structure Env where
  /-- Go `terraform.GetOutputs(workingDir)`: refreshed outputs or an error. -/
  getOutputs : Except String (List (String × GoVal))
  /-- Go `terraform.Executor.ExecuteWithContext` on one (interpolated)
  command: combined output and optional error. -/
  runCommand : String → String × Option String
  /-- Go `terraform.GetState` followed by `State.GetResources()` (managed
  resources only). -/
  getState : Except String (List terraform.Resource)
  /-- Go `client.Get(url)` for the i-th attempt of the HTTP checker. -/
  server : String → Nat → Except String Int
  /-- Wall-clock time units consumed by executing the named step (used by
  the cleanup pass's timeout bookkeeping). -/
  stepSeconds : String → Nat

/-- Mutable executor state: `Executor.results` and `Executor.outputs`
(`NewExecutor` initialises outputs to an empty non-nil map). -/
structure ExecState where
  results : List StepResult
  outputs : terraform.Outputs

/-- Go `terraform.Executor.ExecuteMultipleWithContext`: run commands in order,
concatenating outputs (each followed by a newline), stopping at the first
failure with a `command i/n failed` wrapper. -/
def executeMultipleGo (env : Env) : List String → Nat → Nat → String → String × Option String
  | [], _, _, acc => (acc, none)
  | cmd :: rest, i, total, acc =>
    let (out, err) := env.runCommand cmd
    let acc' := acc ++ out ++ "\n"
    match err with
    | some e =>
      (acc', some ("command " ++ toString (i + 1) ++ "/" ++ toString total ++ " failed: " ++ e))
    | none => executeMultipleGo env rest (i + 1) total acc'

/-- Go `Executor.executeTerraformStepWithContext`: best-effort output refresh,
then run the interpolated `command` (or `commands`). Returns the new
outputs snapshot, the command output, and the error. -/
def executeTerraformStepWithContext (env : Env) (outputs : terraform.Outputs) (step : Step) :
    terraform.Outputs × String × Option String :=
  let outputs :=
    match env.getOutputs with
    | .ok o => some o
    | .error _ => outputs
  if step.command ≠ "" then
    let cmd := interpolator.Interpolate step.command outputs
    let (out, err) := env.runCommand cmd
    (outputs, out, err)
  else if step.commands ≠ [] then
    let interpolated := step.commands.map (fun c => interpolator.Interpolate c outputs)
    let (out, err) := executeMultipleGo env interpolated 0 interpolated.length ""
    (outputs, out, err)
  else
    (outputs, "", some "no command or commands specified for terraform step")

/-- The per-expected-type loop of `Executor.executeInventoryStep`. -/
def inventoryLoop (step : Step) (allResources : List terraform.Resource) :
    List ExpectedResource → List Resource → Except String (List Resource)
  | [], found => .ok found
  | expected :: rest, found =>
    let resources := terraform.GetResourcesByType allResources expected.type
    let count : Int := resources.length
    if expected.minCount > 0 ∧ count < expected.minCount ∧ step.failOnMissing then
      .error ("resource type " ++ expected.type ++ ": expected at least " ++
        toString expected.minCount ++ ", found " ++ toString count)
    else if expected.maxCount > 0 ∧ count > expected.maxCount ∧ step.failOnExtra then
      .error ("resource type " ++ expected.type ++ ": expected at most " ++
        toString expected.maxCount ++ ", found " ++ toString count)
    else if expected.minCount = 0 ∧ expected.maxCount = 0 ∧ count = 0 ∧ step.failOnMissing then
      .error ("resource type " ++ expected.type ++ ": expected but not found")
    else
      inventoryLoop step allResources rest
        (found ++ resources.map (fun r => Resource.mk r.type r.id))

/-- Go `Executor.executeInventoryStep`: requires the LEGACY `expected` field
(the advanced `expected_resources` field is never consulted here), fetches
state, checks each expected type's bounds, and optionally rejects
unexpected resource types. -/
def executeInventoryStep (env : Env) (step : Step) : Except String (List Resource) :=
  match step.expected with
  | none => .error "expected resources not specified"
  | some expected =>
    match env.getState with
    | .error e => .error ("failed to get terraform state: " ++ e)
    | .ok allResources =>
      match inventoryLoop step allResources expected.resources [] with
      | .error e => .error e
      | .ok found =>
        if step.failOnExtra then
          let expectedTypes := expected.resources.map (·.type)
          match allResources.find? (fun r => !(expectedTypes.contains r.type)) with
          | some r => .error ("unexpected resource found: " ++ r.type ++ " (id: " ++ r.id ++ ")")
          | none => .ok found
        else .ok found

/-- Result of `Executor.executeHTTPStep`, keeping the arguments passed to
`http.CheckWithRetry` observable. -/
structure HTTPStepOut where
  outputs : terraform.Outputs
  url : String
  retries : Int
  delay : Int
  result : http.CheckResult

/-- Go `Executor.executeHTTPStep`: best-effort output refresh, URL
interpolation, default substitution for `delay` (unparseable → 10s) and
`retries` (0 → 3), then the HTTP check. -/
def executeHTTPStep (env : Env) (outputs : terraform.Outputs) (step : Step) : HTTPStepOut :=
  let outputs :=
    match env.getOutputs with
    | .ok o => some o
    | .error _ => outputs
  let url := interpolator.Interpolate step.url outputs
  let delay : Int :=
    match gotime.parseDuration step.delay with
    | .ok d => d
    | .error _ => 10000000000
  let retries := if step.retries == 0 then 3 else step.retries
  { outputs := outputs, url := url, retries := retries, delay := delay
    result := http.CheckWithRetry env.server url step.expectedStatus retries delay }

/-- Go `Executor.executeStepWithContext`: dependency check, dispatch on the
step type, record exactly one StepResult per attempt, and wrap errors with
the step name.  A failed dependency check returns BEFORE a StepResult is
created, so nothing is recorded for it. -/
def executeStepWithContext (env : Env) (step : Step) (executed : List String) (st : ExecState) :
    ExecState × Option String :=
  if step.after ≠ "" ∧ ¬ executed.contains step.after then
    (st, some ("step " ++ step.name ++ " depends on " ++ step.after ++ " which hasn't been executed"))
  else
    let (outputs', result, err) :=
      match step.type with
      | "terraform" =>
        let (o, out, e) := executeTerraformStepWithContext env st.outputs step
        (o, { stepName := step.name, stepType := step.type, success := e.isNone
              output := out, error := e : StepResult }, e)
      | "terraform-inventory" =>
        let (resources, e) :=
          match executeInventoryStep env step with
          | .ok rs => (rs, none)
          | .error e => ([], some e)
        (st.outputs, { stepName := step.name, stepType := step.type, success := e.isNone
                       resources := resources, error := e : StepResult }, e)
      | "http" =>
        let h := executeHTTPStep env st.outputs step
        (h.outputs, { stepName := step.name, stepType := step.type
                      success := h.result.error.isNone, httpStatus := h.result.status
                      error := h.result.error : StepResult }, h.result.error)
      | _ =>
        let e : Option String := some ("unknown step type: " ++ step.type)
        (st.outputs, { stepName := step.name, stepType := step.type, success := false
                       error := e : StepResult }, e)
    let st' : ExecState := { results := st.results ++ [result], outputs := outputs' }
    match err with
    | some e => (st', some ("step " ++ step.name ++ " failed: " ++ e))
    | none => (st', none)

/-- The step loop of `Executor.ExecuteWithContext`: `when` gating against
the running `hasFailure` flag, marking a step executed after its attempt
(success or failure), and stopping on error unless the step is `always`.
(Context cancellation is an external interrupt and is not modelled.) -/
def execLoop (env : Env) : List Step → ExecState → List String → Bool →
    ExecState × List String × Option String
  | [], st, executed, _ => (st, executed, none)
  | step :: rest, st, executed, hasFailure =>
    if step.when == "on-success" ∧ hasFailure then
      execLoop env rest st executed hasFailure
    else if step.when == "on-failure" ∧ ¬ hasFailure then
      execLoop env rest st executed hasFailure
    else
      let (st', err) := executeStepWithContext env step executed st
      let executed' := executed ++ [step.name]
      match err with
      | none => execLoop env rest st' executed' hasFailure
      | some e =>
        if step.when == "always" then execLoop env rest st' executed' true
        else (st', executed', some e)

/-- Go `Executor.ExecuteWithContext` on a fresh executor
(`results = []`, `outputs = empty non-nil map`). -/
def ExecuteWithContext (env : Env) (steps : List Step) :
    ExecState × List String × Option String :=
  execLoop env steps { results := [], outputs := some [] } [] false

end flow

namespace flow

/-- Output of `CleanupManager.RunCleanup`: final executor state, the lines
printed by the cleanup pass itself, the returned error, the number of
successfully executed cleanup steps, and the elapsed cleanup time. -/
structure CleanupOut where
  state : ExecState
  trace : List String
  error : Option String
  cleanupExecuted : Nat
  elapsed : Nat

/-- The step loop of `CleanupManager.RunCleanup`
(src/internal/flow/cleanup.go): for every `when: always` step not yet in
the executed set, first check the timeout context (expiry aborts the pass
with a timeout error), then execute the step; a step failure is printed and
the pass continues; each attempted step is marked executed. -/
def runCleanupLoop (env : Env) (timeout : Nat) :
    List Step → ExecState → List String → Nat → Nat → List String → CleanupOut
  | [], st, _, elapsed, cnt, trace =>
    let closing :=
      if cnt > 0 then "✓ Cleanup completed (" ++ toString cnt ++ " step(s))"
      else "No cleanup steps to run"
    { state := st, trace := trace ++ [closing], error := none
      cleanupExecuted := cnt, elapsed := elapsed }
  | step :: rest, st, executed, elapsed, cnt, trace =>
    if step.when == "always" ∧ ¬ executed.contains step.name then
      if elapsed ≥ timeout then
        { state := st, trace := trace
          error := some ("cleanup timeout after " ++ toString timeout)
          cleanupExecuted := cnt, elapsed := elapsed }
      else
        let trace1 := trace ++ ["  Running cleanup step: " ++ step.name]
        let (st', err) := executeStepWithContext env step executed st
        let elapsed' := elapsed + env.stepSeconds step.name
        match err with
        | some e =>
          runCleanupLoop env timeout rest st' (executed ++ [step.name]) elapsed' cnt
            (trace1 ++ ["Cleanup step " ++ step.name ++ " failed: " ++ e])
        | none =>
          runCleanupLoop env timeout rest st' (executed ++ [step.name]) elapsed' (cnt + 1) trace1
    else
      runCleanupLoop env timeout rest st executed elapsed cnt trace

/-- Go `CleanupManager.RunCleanup` (non-interrupted entry): the executed set
is rebuilt from the recorded StepResults; the pass runs under a fresh
timeout context. -/
def RunCleanup (env : Env) (steps : List Step) (st : ExecState) (timeout : Nat) : CleanupOut :=
  let executed := st.results.map (·.stepName)
  runCleanupLoop env timeout steps st executed 0 0 ["🧹 Running cleanup steps..."]

end flow

namespace filepath

/-- Go `path/filepath.Clean` (unix rules), via the classic
component-stack formulation: drop empty and `.` components, `..` pops a
non-`..` component (and is dropped at the root), the empty result is `.`.
The stack is kept reversed (top first). -/
def clean (p : String) : String :=
  if p == "" then "."
  else
    let rooted := p.data.head? == some '/'
    let stack := (goSplit '/' p).foldl
      (fun (stack : List String) c =>
        if c == "" || c == "." then stack
        else if c == ".." then
          match stack with
          | top :: rest => if top == ".." then c :: stack else rest
          | [] => if rooted then [] else [".."]
        else c :: stack) []
    let out := (if rooted then "/" else "") ++ "/".intercalate stack.reverse
    if out == "" then "." else out

/-- Go `filepath.IsAbs` (unix). -/
def isAbs (p : String) : Bool := p.data.head? == some '/'

/-- Go `filepath.Dir` (unix): everything up to (and including) the final
slash, cleaned; `.` when there is no slash. -/
def dir (p : String) : String :=
  match (p.data.reverse.dropWhile (· ≠ '/')).reverse with
  | [] => clean ""
  | cs => clean (String.mk cs)

/-- Go `filepath.Join` on two elements: empty elements are dropped, the
rest are joined with `/` and cleaned; all-empty input gives `""`. -/
def join2 (a b : String) : String :=
  if a == "" ∧ b == "" then ""
  else if a == "" then clean b
  else if b == "" then clean a
  else clean (a ++ "/" ++ b)

end filepath

namespace flow

/-- Go `flow.validateFlow`: name, working_dir and a non-empty step list are
required; nothing else is checked. -/
def validateFlow (f : Flow) : Option String :=
  if f.name == "" then some "flow name is required"
  else if f.workingDir == "" then some "working_dir is required"
  else if f.steps.isEmpty then some "at least one step is required"
  else none

/-- Go `flow.ParseFlow`.  Reading the file and YAML-decoding it are external
I/O; their combined outcome (a decoded `Flow` or an error) is the
`yamlFlow` argument.  The function then resolves `working_dir` relative to
the flow file's directory, cleans it, and validates the flow. -/
def ParseFlow (yamlFlow : Except String Flow) (path : String) : Except String Flow :=
  match yamlFlow with
  | .error e => .error e
  | .ok f =>
    let flowFileDir := filepath.dir path
    let wd :=
      if !(filepath.isAbs f.workingDir) then filepath.join2 flowFileDir f.workingDir
      else f.workingDir
    let f' : Flow := { f with workingDir := filepath.clean wd }
    match validateFlow f' with
    | some e => .error ("invalid flow: " ++ e)
    | none => .ok f'

/-- Go `cmd.executeFlow` (src/cmd/root.go), reduced to its state-relevant
core: run the flow; on failure run the cleanup pass (report generation and
error display are pure I/O) and return the original execution error. -/
def executeFlow (env : Env) (steps : List Step) (cleanupTimeout : Nat) :
    ExecState × Option String :=
  match ExecuteWithContext env steps with
  | (st, _, none) => (st, none)
  | (st, _, some e) => ((RunCleanup env steps st cleanupTimeout).state, some e)

end flow

/-! Concrete scenarios and spec-side predicates used by the theorems. -/

/-- Substring test (used to state which messages a trace contains). -/
def containsSubAux (needle : List Char) : List Char → Bool
  | [] => needle.isPrefixOf []
  | c :: rest => needle.isPrefixOf (c :: rest) || containsSubAux needle rest

def containsSub (needle hay : String) : Bool := containsSubAux needle.data hay.data

/-- Spec-side predicate (§3): step names are unique within the flow. -/
def specStepNamesUnique (steps : List flow.Step) : Bool :=
  go (steps.map (fun s => s.name))
where
  go : List String → Bool
    | [] => true
    | n :: rest => !(rest.contains n) && go rest

/-- Spec-side predicate (§3): every non-empty `after` names a step that
appears EARLIER in the sequence. -/
def specAftersReferenceEarlier (steps : List flow.Step) : Bool :=
  go steps []
where
  go : List flow.Step → List String → Bool
    | [], _ => true
    | s :: rest, earlier =>
      (s.after == "" || earlier.contains s.after) && go rest (earlier ++ [s.name])

/-- Base environment: terraform outputs unavailable, every command succeeds
with the given output, no state, HTTP always 200, every step takes one
time unit. -/
def envAllOK (out : String) : flow.Env :=
  { getOutputs := .error "outputs unavailable"
    runCommand := fun _ => (out, none)
    getState := .error "state unavailable"
    server := fun _ _ => .ok 200
    stepSeconds := fun _ => 1 }

/-- Environment in which exactly the command `"c1"` fails with `msg`. -/
def envC1Fails (out msg : String) : flow.Env :=
  { envAllOK out with runCommand := fun c => if c = "c1" then ("", some msg) else (out, none) }

/-- Environment in which every command fails. -/
def envAllFail (msg : String) : flow.Env :=
  { envAllOK "" with runCommand := fun c => ("", some (msg ++ c)) }

-- C1: the three-step flows of spec §8.
def c1step1 : flow.Step := { name := "step1", type := "terraform", command := "c1" }

def c1step2onFailure : flow.Step :=
  { name := "step2", type := "terraform", command := "c2", when := "on-failure" }

def c1step2always : flow.Step :=
  { name := "step2", type := "terraform", command := "c2", when := "always" }

def c1step3 : flow.Step := { name := "step3", type := "terraform", command := "c3" }

-- C9: dependency scenarios.
def c9s1always : flow.Step := { name := "s1", type := "terraform", command := "c1", when := "always" }

def c9s1onFailure : flow.Step :=
  { name := "s1", type := "terraform", command := "c1", when := "on-failure" }

def c9s2after : flow.Step := { name := "s2", type := "terraform", command := "c2", after := "s1" }

-- C2: the aws_vpc scenario of spec §8.
def c2vpc : inventory.Resource :=
  { type := "aws_vpc", name := "main", address := "aws_vpc.main", id := "vpc-123"
    attributes := [("cidr_block", .str "10.0.0.0/16")] }

def c2patCount2 : inventory.ResourceMatch :=
  { type := "aws_vpc", name := "main", count := some 2
    attributes := [("cidr_block", .str "10.0.0.0/16")] }

-- C4: a run whose only cleanup step fails, and one with two failing
-- cleanup steps.
def c4provision : flow.Step := { name := "provision", type := "terraform", command := "c1" }

def c4teardown : flow.Step :=
  { name := "teardown", type := "terraform", command := "c2", when := "always" }

def c4teardown2 : flow.Step :=
  { name := "teardown2", type := "terraform", command := "c3", when := "always" }

-- C7: a flow with duplicate step names and a forward `after` reference,
-- and a well-formed flow.
def c7badFlow : flow.Flow :=
  { name := "bad", workingDir := "./tf"
    steps := [{ name := "a", type := "terraform", command := "x", after := "b" },
              { name := "a", type := "terraform", command := "y" }] }

def c7goodFlow : flow.Flow :=
  { name := "good", workingDir := "./tf"
    steps := [{ name := "init", type := "terraform", command := "terraform init" }] }

-- C8: the two HTTP servers of spec §8.
def c8srv500then200 : String → Nat → Except String Int :=
  fun _ i => .ok (if i == 0 then 500 else 200)

def c8srvAlways500 : String → Nat → Except String Int := fun _ _ => .ok 500

-- C10: an http step with unset retries and unset delay, against an
-- always-500 server.
def c10env : flow.Env := { envAllOK "" with server := c8srvAlways500 }

def c10step : flow.Step :=
  { name := "health", type := "http", url := "http://svc/health", expectedStatus := 200 }

/-! Theorems settling the claims. -/

/-- C3: the advanced `expected_resources` format is declared in `Step`,
documented in the README as accepted, and parsed (see
`TestParseFlowWithAdvancedInventory`), but `executeInventoryStep` only
consults the legacy `expected` field: a step carrying patterns only in the
advanced format fails with the fatal "expected resources not specified"
configuration error, for every environment and every pattern map. -/
theorem c3_advanced_format_rejected (env : flow.Env) (key : String)
    (cfg : flow.ResourceMatchConfig) :
    flow.executeInventoryStep env
      { name := "inventory-check", type := "terraform-inventory"
        expectedResources := [(key, cfg)] } =
    .error "expected resources not specified" := rfl

/-- C6 counterexample: the claim says a boolean expected value NEVER equals
a non-boolean actual, but when the actual value is not a boolean the code
falls through the boolean branch into the string-rendering fallback, so
expected `true` equals the actual STRING `"true"`. -/
theorem c6_bool_vs_string_counterexample :
    inventory.valuesEqual (.bool true) (.str "true") = true := rfl

/-- C6 (amended): expected strings compare against the actual value's
string rendering; expected numbers compare numerically against float
actuals and against int actuals coerced; expected booleans compare by
boolean equality ONLY when the actual is a boolean, and otherwise fall back
(like every remaining combination) to string-rendering equality — so a
boolean expected value can equal a non-boolean actual whose rendering
coincides. -/
theorem c6_values_equal_semantics :
    (∀ (s : String) (act : GoVal),
      inventory.valuesEqual (.str s) act = (s == goSprint act)) ∧
    (∀ (q : Rat) (act : GoVal),
      inventory.valuesEqual (.float q) act =
        (match act with
         | .float q' => q == q'
         | .int n => q == (n : Rat)
         | _ => goSprint (.float q) == goSprint act)) ∧
    (∀ (b : Bool) (act : GoVal),
      inventory.valuesEqual (.bool b) act =
        (match act with
         | .bool b' => b == b'
         | _ => goSprint (.bool b) == goSprint act)) ∧
    (∀ (exp act : GoVal),
      (∀ s, exp ≠ .str s) → (∀ q, exp ≠ .float q) → (∀ b, exp ≠ .bool b) →
      inventory.valuesEqual exp act = (goSprint exp == goSprint act)) := by
  refine ⟨fun s act => rfl, fun q act => ?_, fun b act => ?_, fun exp act h1 h2 h3 => ?_⟩
  · cases act <;> rfl
  · cases act <;> rfl
  · cases exp with
    | str s => exact absurd rfl (h1 s)
    | float q => exact absurd rfl (h2 q)
    | bool b => exact absurd rfl (h3 b)
    | int n => rfl
    | arr xs => rfl
    | obj kvs => rfl
    | null => rfl

/-- Witness for `c6_values_equal_semantics`: the fallback clause applied at
expected `int 1`, actual string `"1"`. -/
theorem c6_values_equal_semantics_witness :
    inventory.valuesEqual (.int 1) (.str "1") = (goSprint (.int 1) == goSprint (.str "1")) :=
  c6_values_equal_semantics.2.2.2 (.int 1) (.str "1")
    (fun _ h => nomatch h) (fun _ h => nomatch h) (fun _ h => nomatch h)

/-- C1: scheduler conditional gating and propagation, on the three-step
flows of spec §8.  (a) When step 1 succeeds and step 2 is `when:
on-failure`, step 2 is skipped: the recorded StepResults are exactly those
of steps 1 and 3 and the run succeeds.  (b) When step 1 fails and step 2 is
`when: always`, the run (executor pass + cleanup pass, as composed by
`cmd.executeFlow`) still executes step 2, records its StepResult, and
terminates returning step 1's wrapped error. -/
theorem c1_scheduler_gating (out msg : String) :
    (let r := flow.executeFlow (envAllOK out) [c1step1, c1step2onFailure, c1step3] 100
     r.1.results.map (fun x => x.stepName) = ["step1", "step3"] ∧
     (r.1.results.map (fun x => x.stepName)).contains "step2" = false ∧
     r.2 = none) ∧
    (let r := flow.executeFlow (envC1Fails out msg) [c1step1, c1step2always, c1step3] 100
     r.1.results.map (fun x => (x.stepName, x.success)) = [("step1", false), ("step2", true)] ∧
     r.2 = some ("step step1 failed: " ++ msg)) := by
  constructor
  · exact ⟨rfl, rfl, rfl⟩
  · exact ⟨rfl, rfl⟩

/-- C9: the scheduler marks a step executed after its attempt completes,
success or failure, but never marks a `when`-skipped step executed.
(a) `s1` is `when: always` and fails; the following step `s2` with
`after: s1` passes the dependency check and executes (and the run, having
only an always-run failure, finishes without error).  (b) `s1` is `when:
on-failure` and is skipped; `s2` with `after: s1` fails with the dependency
error, and — the dependency check firing before a StepResult is created —
no StepResult at all is recorded. -/
theorem c9_executed_marking (out msg : String) :
    (let r := flow.ExecuteWithContext (envC1Fails out msg) [c9s1always, c9s2after]
     r.1.results.map (fun x => (x.stepName, x.success)) = [("s1", false), ("s2", true)] ∧
     r.2.1 = ["s1", "s2"] ∧
     r.2.2 = none) ∧
    (let r := flow.ExecuteWithContext (envAllOK out) [c9s1onFailure, c9s2after]
     r.1.results = [] ∧
     r.2.1 = ["s2"] ∧
     r.2.2 = some "step s2 depends on s1 which hasn't been executed") := by
  exact ⟨⟨rfl, rfl, rfl⟩, ⟨rfl, rfl, rfl⟩⟩

/-- C10: before invoking the HTTP checker the executor substitutes
defaults: retries 0 (the Go zero value for an unset field) becomes 3, any
other value passes through; a delay string that `time.ParseDuration`
rejects (in particular the empty string of an unset field) becomes 10
seconds, a parseable one passes through.  At the defaults, against an
always-500 server, the checker consequently makes 3+1 = 4 attempts and
sleeps 3 × 10s in total. -/
theorem c10_http_defaults :
    (∀ (env : flow.Env) (outputs : terraform.Outputs) (step : flow.Step),
      step.retries = 0 → (flow.executeHTTPStep env outputs step).retries = 3) ∧
    (∀ (env : flow.Env) (outputs : terraform.Outputs) (step : flow.Step),
      step.retries ≠ 0 → (flow.executeHTTPStep env outputs step).retries = step.retries) ∧
    (∀ (env : flow.Env) (outputs : terraform.Outputs) (step : flow.Step) (e : String),
      gotime.parseDuration step.delay = .error e →
      (flow.executeHTTPStep env outputs step).delay = 10000000000) ∧
    (∀ (env : flow.Env) (outputs : terraform.Outputs) (step : flow.Step) (d : Int),
      gotime.parseDuration step.delay = .ok d →
      (flow.executeHTTPStep env outputs step).delay = d) ∧
    (let h := flow.executeHTTPStep c10env (some []) c10step
     h.retries = 3 ∧ h.delay = 10000000000 ∧
     h.result.attempts = 4 ∧ h.result.sleepTotal = 30000000000) := by
  refine ⟨?_, ?_, ?_, ?_, ?_⟩
  · intro env outputs step h
    simp [flow.executeHTTPStep, h]
  · intro env outputs step h
    simp [flow.executeHTTPStep, h]
  · intro env outputs step e h
    simp [flow.executeHTTPStep, h]
  · intro env outputs step d h
    simp [flow.executeHTTPStep, h]
  · exact ⟨rfl, rfl, rfl, rfl⟩

/-- Witness for `c10_http_defaults`: the default substitutions applied at
the concrete unset step. -/
theorem c10_http_defaults_witness :
    (flow.executeHTTPStep c10env (some []) c10step).retries = 3 ∧
    (flow.executeHTTPStep c10env (some []) c10step).delay = 10000000000 :=
  ⟨c10_http_defaults.1 c10env (some []) c10step rfl,
   c10_http_defaults.2.2.1 c10env (some []) c10step "time: invalid duration " rfl⟩

/-- Helper: each call of the retry loop issues at most `remaining` further
requests. -/
theorem checkLoop_attempts_le (server : String → Nat → Except String Int) (url : String)
    (es retries delay : Int) :
    ∀ (remaining i attempts : Nat) (sleep lastStatus : Int) (lastErr : Option String),
      (http.checkLoop server url es retries delay i remaining attempts sleep lastStatus lastErr).attempts
        ≤ attempts + remaining := by
  intro remaining
  induction remaining with
  | zero =>
    intro i attempts sleep ls le
    simp [http.checkLoop]
  | succ n ih =>
    intro i attempts sleep ls le
    rcases hs : server url i with e | status
    · by_cases hlt : (i : Int) < retries
      · have hrec := ih (i + 1) (attempts + 1) (sleep + delay) ls (some e)
        simp only [http.checkLoop, hs]
        rw [if_pos hlt]
        omega
      · simp only [http.checkLoop, hs]
        rw [if_neg hlt]
        show attempts + 1 ≤ attempts + (n + 1)
        omega
    · by_cases hmis : es > 0 ∧ status ≠ es
      · by_cases hlt : (i : Int) < retries
        · have hrec := ih (i + 1) (attempts + 1) (sleep + delay) status le
          simp only [http.checkLoop, hs]
          rw [if_pos hmis, if_pos hlt]
          omega
        · simp only [http.checkLoop, hs]
          rw [if_pos hmis, if_neg hlt]
          show attempts + 1 ≤ attempts + (n + 1)
          omega
      · simp only [http.checkLoop, hs]
        rw [if_neg hmis]
        show attempts + 1 ≤ attempts + (n + 1)
        omega

/-- C8: `CheckWithRetry` with retry count r issues at most r+1 requests,
sleeping the configured delay between consecutive attempts; against a
server answering 500 then 200 with retries=2 it succeeds on the second
attempt (after one delay of sleep); against a server always answering 500
with retries=1 it fails after exactly 2 attempts. -/
theorem c8_http_retry :
    (∀ (server : String → Nat → Except String Int) (url : String) (es retries delay : Int),
      0 ≤ retries →
      ((http.CheckWithRetry server url es retries delay).attempts : Int) ≤ retries + 1) ∧
    (∀ d : Int,
      (http.CheckWithRetry c8srv500then200 "http://svc" 200 2 d).status = 200 ∧
      (http.CheckWithRetry c8srv500then200 "http://svc" 200 2 d).error = none ∧
      (http.CheckWithRetry c8srv500then200 "http://svc" 200 2 d).attempts = 2 ∧
      (http.CheckWithRetry c8srv500then200 "http://svc" 200 2 d).sleepTotal = d) ∧
    (∀ d : Int,
      (http.CheckWithRetry c8srvAlways500 "http://svc" 200 1 d).status = 500 ∧
      (http.CheckWithRetry c8srvAlways500 "http://svc" 200 1 d).error =
        some "expected status 200, got 500" ∧
      (http.CheckWithRetry c8srvAlways500 "http://svc" 200 1 d).attempts = 2 ∧
      (http.CheckWithRetry c8srvAlways500 "http://svc" 200 1 d).sleepTotal = d) := by
  refine ⟨?_, ?_, ?_⟩
  · intro server url es retries delay hr
    have hb := checkLoop_attempts_le server url es retries delay (retries + 1).toNat 0 0 0 0 none
    have ht : ((retries + 1).toNat : Int) = retries + 1 := Int.toNat_of_nonneg (by omega)
    unfold http.CheckWithRetry
    omega
  · intro d
    refine ⟨rfl, rfl, rfl, ?_⟩
    show (0 : Int) + d = d
    exact zero_add d
  · intro d
    refine ⟨rfl, rfl, rfl, ?_⟩
    show (0 : Int) + d = d
    exact zero_add d

/-- Witness for `c8_http_retry`: the attempt bound applied at the concrete
always-500 server with retries = 1. -/
theorem c8_http_retry_witness :
    ((http.CheckWithRetry c8srvAlways500 "http://svc" 200 1 7).attempts : Int) ≤ 1 + 1 :=
  c8_http_retry.1 c8srvAlways500 "http://svc" 200 1 7 (by omega)

/-- C2: the exact/min/max cardinality checks of `matchPattern` are applied
independently — every violated constraint contributes its own issue — and
`MatchResult.matched` is true exactly when the pattern has zero issues and
every cardinality constraint holds.  For one matching `aws_vpc` resource
with a matching attribute and expected count 2, the result is exactly one
count-mismatch issue. -/
theorem c2_matcher_cardinality :
    (∀ (resources : List inventory.Resource) (m : inventory.ResourceMatch) (c : Int),
      m.count = some c → (inventory.matchPattern resources m).count ≠ c →
      ("expected exactly " ++ toString c ++ " resources, found " ++
        toString (inventory.matchPattern resources m).count) ∈
        (inventory.matchPattern resources m).issues) ∧
    (∀ (resources : List inventory.Resource) (m : inventory.ResourceMatch) (c : Int),
      m.minCount = some c → (inventory.matchPattern resources m).count < c →
      ("expected at least " ++ toString c ++ " resources, found " ++
        toString (inventory.matchPattern resources m).count) ∈
        (inventory.matchPattern resources m).issues) ∧
    (∀ (resources : List inventory.Resource) (m : inventory.ResourceMatch) (c : Int),
      m.maxCount = some c → (inventory.matchPattern resources m).count > c →
      ("expected at most " ++ toString c ++ " resources, found " ++
        toString (inventory.matchPattern resources m).count) ∈
        (inventory.matchPattern resources m).issues) ∧
    (∀ (resources : List inventory.Resource) (m : inventory.ResourceMatch),
      (inventory.matchPattern resources m).matched = true ↔
        ((inventory.matchPattern resources m).issues = [] ∧
         (∀ c, m.count = some c → (inventory.matchPattern resources m).count = c) ∧
         (∀ c, m.minCount = some c → c ≤ (inventory.matchPattern resources m).count) ∧
         (∀ c, m.maxCount = some c → (inventory.matchPattern resources m).count ≤ c))) ∧
    ((inventory.matchPattern [c2vpc] c2patCount2).issues =
        ["expected exactly 2 resources, found 1"] ∧
     (inventory.matchPattern [c2vpc] c2patCount2).matched = false) := by
  refine ⟨?_, ?_, ?_, ?_, ⟨rfl, rfl⟩⟩
  · intro resources m c hc hne
    simp only [inventory.matchPattern, hc] at hne ⊢
    simp [hne]
  · intro resources m c hc hlt
    simp only [inventory.matchPattern, hc] at hlt ⊢
    simp [hlt]
  · intro resources m c hc hgt
    simp only [inventory.matchPattern, hc] at hgt ⊢
    simp [hgt]
  · intro resources m
    cases hm : m.count <;> cases hmin : m.minCount <;> cases hmax : m.maxCount <;>
      simp [inventory.matchPattern, hm, hmin, hmax, List.isEmpty_iff, and_assoc]

/-- Witness for `c2_matcher_cardinality`: the exact-count clause applied at
the concrete vpc scenario with expected count 2. -/
theorem c2_matcher_cardinality_witness :
    ("expected exactly " ++ toString (2 : Int) ++ " resources, found " ++
      toString (inventory.matchPattern [c2vpc] c2patCount2).count) ∈
      (inventory.matchPattern [c2vpc] c2patCount2).issues :=
  c2_matcher_cardinality.1 [c2vpc] c2patCount2 2 rfl (by decide)

/-- C7 counterexample: `ParseFlow` accepts (returns `.ok` for) a flow whose
two steps share the name "a" and whose first step's `after` references a
step that does not appear earlier — so a successfully parsed Flow need NOT
satisfy the §3 step-name-uniqueness and earlier-`after` invariants the
claim asserts. -/
theorem c7_parse_flow_counterexample :
    (flow.ParseFlow (.ok c7badFlow) "/x/flow.yaml").map
      (fun f => (specStepNamesUnique f.steps, specAftersReferenceEarlier f.steps)) =
      .ok (false, false) := rfl

/-- C7 (amended): `ParseFlow` is total — it returns either a flow or a
configuration error — and a returned flow satisfies exactly the invariants
`validateFlow` checks: non-empty name, non-empty (resolved) working
directory, and a non-empty step list; the step list itself is passed
through unchanged, so the parsed step count equals the input step-list
length.  Step-name uniqueness and `after`-ordering are NOT checked at parse
time (`after` is only checked when the scheduler evaluates the step). -/
theorem validateFlow_none (f : flow.Flow) :
    flow.validateFlow f = none → f.name ≠ "" ∧ f.workingDir ≠ "" ∧ f.steps ≠ [] := by
  intro heq
  simp only [flow.validateFlow] at heq
  by_cases h1 : f.name == ""
  · rw [if_pos h1] at heq; exact absurd heq (by simp)
  · rw [if_neg h1] at heq
    by_cases h2 : f.workingDir == ""
    · rw [if_pos h2] at heq; exact absurd heq (by simp)
    · rw [if_neg h2] at heq
      by_cases h3 : f.steps.isEmpty
      · rw [if_pos h3] at heq; exact absurd heq (by simp)
      · exact ⟨by simpa using h1, by simpa using h2, by simpa [List.isEmpty_iff] using h3⟩

theorem c7_parse_flow_validation :
    (∀ (f : flow.Flow) (path : String) (g : flow.Flow),
      flow.ParseFlow (.ok f) path = .ok g →
      g.name ≠ "" ∧ g.workingDir ≠ "" ∧ g.steps ≠ [] ∧ g.steps = f.steps ∧
      g.steps.length = f.steps.length) ∧
    (∀ (e path : String), flow.ParseFlow (.error e) path = .error e) := by
  constructor
  · intro f path g h
    simp only [flow.ParseFlow] at h
    split at h
    · exact absurd h (by simp)
    · rename_i heq
      simp only [Except.ok.injEq] at h
      obtain ⟨hn, hw, hs⟩ := validateFlow_none _ heq
      subst h
      exact ⟨hn, hw, hs, rfl, rfl⟩
  · intro e path
    rfl

/-- Witness for `c7_parse_flow_validation`: the validation guarantees,
applied at a concrete well-formed flow parsed from `/x/flow.yaml`. -/
theorem c7_parse_flow_validation_witness :
    ({ name := "good", workingDir := "/x/tf",
       steps := [{ name := "init", type := "terraform", command := "terraform init" }] } :
        flow.Flow).name ≠ "" ∧
    ({ name := "good", workingDir := "/x/tf",
       steps := [{ name := "init", type := "terraform", command := "terraform init" }] } :
        flow.Flow).workingDir ≠ "" ∧
    ({ name := "good", workingDir := "/x/tf",
       steps := [{ name := "init", type := "terraform", command := "terraform init" }] } :
        flow.Flow).steps ≠ [] ∧
    ({ name := "good", workingDir := "/x/tf",
       steps := [{ name := "init", type := "terraform", command := "terraform init" }] } :
        flow.Flow).steps = c7goodFlow.steps ∧
    ({ name := "good", workingDir := "/x/tf",
       steps := [{ name := "init", type := "terraform", command := "terraform init" }] } :
        flow.Flow).steps.length = c7goodFlow.steps.length :=
  c7_parse_flow_validation.1 c7goodFlow "/x/flow.yaml"
    { name := "good", workingDir := "/x/tf",
      steps := [{ name := "init", type := "terraform", command := "terraform init" }] } rfl

/-- Helper: the cleanup loop's returned error is `none` or the timeout
error — individual step failures never surface in it. -/
theorem runCleanupLoop_error (env : flow.Env) (timeout : Nat) :
    ∀ (steps : List flow.Step) (st : flow.ExecState) (executed : List String)
      (elapsed cnt : Nat) (trace : List String),
      (flow.runCleanupLoop env timeout steps st executed elapsed cnt trace).error = none ∨
      (flow.runCleanupLoop env timeout steps st executed elapsed cnt trace).error =
        some ("cleanup timeout after " ++ toString timeout) := by
  intro steps
  induction steps with
  | nil => intro st executed elapsed cnt trace; left; rfl
  | cons s rest ih =>
    intro st executed elapsed cnt trace
    by_cases he : s.when == "always" ∧ ¬ executed.contains s.name
    · by_cases ht : elapsed ≥ timeout
      · simp only [flow.runCleanupLoop]
        rw [if_pos he, if_pos ht]
        right; rfl
      · simp only [flow.runCleanupLoop]
        rw [if_pos he, if_neg ht]
        rcases hstep : flow.executeStepWithContext env s executed st with ⟨st', err⟩
        cases err with
        | none => exact ih st' (executed ++ [s.name]) (elapsed + env.stepSeconds s.name) (cnt + 1) _
        | some e => exact ih st' (executed ++ [s.name]) (elapsed + env.stepSeconds s.name) cnt _
    · simp only [flow.runCleanupLoop]
      rw [if_neg he]
      exact ih st executed elapsed cnt trace

/-- Helper: when no step is an eligible cleanup step, the loop leaves the
executor state untouched and reports no error. -/
theorem runCleanupLoop_skip (env : flow.Env) (timeout : Nat) :
    ∀ (steps : List flow.Step) (st : flow.ExecState) (executed : List String)
      (elapsed cnt : Nat) (trace : List String),
      (∀ s ∈ steps, ¬(s.when == "always" ∧ ¬ executed.contains s.name)) →
      (flow.runCleanupLoop env timeout steps st executed elapsed cnt trace).state = st ∧
      (flow.runCleanupLoop env timeout steps st executed elapsed cnt trace).error = none := by
  intro steps
  induction steps with
  | nil => intro st executed elapsed cnt trace _; exact ⟨rfl, rfl⟩
  | cons s rest ih =>
    intro st executed elapsed cnt trace hall
    have he := hall s (by simp)
    simp only [flow.runCleanupLoop]
    rw [if_neg he]
    exact ih st executed elapsed cnt trace (fun x hx => hall x (by simp [hx]))

/-- C4 counterexample: a run whose only cleanup step fails.  `RunCleanup`
prints the failure and continues, but returns `none` — the step failures
are NOT aggregated into the returned error — and no line of its output
contains the manual teardown instruction (`terraform destroy`) the claim
requires in every failure case. -/
theorem c4_cleanup_counterexample :
    (flow.RunCleanup (envAllFail "fail ") [c4provision, c4teardown]
        (flow.ExecuteWithContext (envAllFail "fail ") [c4provision, c4teardown]).1 100).trace.contains
      "Cleanup step teardown failed: step teardown failed: fail c2" = true ∧
    (flow.RunCleanup (envAllFail "fail ") [c4provision, c4teardown]
        (flow.ExecuteWithContext (envAllFail "fail ") [c4provision, c4teardown]).1 100).error = none ∧
    (flow.RunCleanup (envAllFail "fail ") [c4provision, c4teardown]
        (flow.ExecuteWithContext (envAllFail "fail ") [c4provision, c4teardown]).1 100).trace.all
      (fun line => !(containsSub "terraform destroy" line)) = true := by
  exact ⟨rfl, rfl, by decide⟩

/-- C4 (amended): the cleanup pass attempts exactly the `when: always`
steps with no recorded StepResult, sequentially; an individual cleanup
step's failure is printed and does not stop the pass (all cleanup steps are
attempted, and each attempt is recorded as a StepResult); however those
failures are NOT aggregated into the returned error — `RunCleanup` returns
`none` unless the cleanup timeout has expired between steps, in which case
the remaining steps are aborted and the timeout failure is returned — and
no manual-recovery (teardown) instructions are emitted by this pass. -/
theorem c4_cleanup_pass :
    (∀ (env : flow.Env) (steps : List flow.Step) (st : flow.ExecState) (timeout : Nat),
      (flow.RunCleanup env steps st timeout).error = none ∨
      (flow.RunCleanup env steps st timeout).error =
        some ("cleanup timeout after " ++ toString timeout)) ∧
    (∀ (env : flow.Env) (steps : List flow.Step) (st : flow.ExecState) (timeout : Nat),
      (∀ s ∈ steps,
        ¬(s.when == "always" ∧ ¬ (st.results.map (fun r => r.stepName)).contains s.name)) →
      (flow.RunCleanup env steps st timeout).state = st ∧
      (flow.RunCleanup env steps st timeout).error = none) ∧
    (let st := (flow.ExecuteWithContext (envAllFail "fail ")
        [c4provision, c4teardown, c4teardown2]).1
     let c := flow.RunCleanup (envAllFail "fail ") [c4provision, c4teardown, c4teardown2] st 100
     c.state.results.map (fun r => (r.stepName, r.success)) =
       [("provision", false), ("teardown", false), ("teardown2", false)] ∧
     c.trace.contains "Cleanup step teardown failed: step teardown failed: fail c2" = true ∧
     c.trace.contains "Cleanup step teardown2 failed: step teardown2 failed: fail c3" = true ∧
     c.error = none) ∧
    (let c := flow.RunCleanup (envAllOK "") [c4teardown, c4teardown2]
        { results := [], outputs := some [] } 1
     c.error = some ("cleanup timeout after " ++ toString (1 : Nat)) ∧
     c.state.results.map (fun r => r.stepName) = ["teardown"]) := by
  refine ⟨?_, ?_, ?_, ?_⟩
  · intro env steps st timeout
    exact runCleanupLoop_error env timeout steps st _ 0 0 _
  · intro env steps st timeout hall
    exact runCleanupLoop_skip env timeout steps st _ 0 0 _ hall
  · exact ⟨rfl, rfl, rfl, rfl⟩
  · exact ⟨rfl, rfl⟩

/-- Witness for `c4_cleanup_pass`: the error dichotomy and the
nothing-eligible clause applied at a concrete state and flow. -/
theorem c4_cleanup_pass_witness :
    ((flow.RunCleanup (envAllOK "") [c4provision] { results := [], outputs := some [] } 5).error =
        none ∨
     (flow.RunCleanup (envAllOK "") [c4provision] { results := [], outputs := some [] } 5).error =
        some ("cleanup timeout after " ++ toString (5 : Nat))) ∧
    (flow.RunCleanup (envAllOK "") [c4provision] { results := [], outputs := some [] } 5).state =
      { results := [], outputs := some [] } := by
  refine ⟨c4_cleanup_pass.1 (envAllOK "") [c4provision] { results := [], outputs := some [] } 5, ?_⟩
  exact (c4_cleanup_pass.2.1 (envAllOK "") [c4provision] { results := [], outputs := some [] } 5
    (by decide)).1

/-- Helper: the head of a non-empty `dropWhile` result fails the predicate. -/
theorem dropWhile_head_not {α : Type} (p : α → Bool) :
    ∀ (l : List α) (x : α) (xs : List α), l.dropWhile p = x :: xs → p x = false := by
  intro l
  induction l with
  | nil => intro x xs h; simp [List.dropWhile] at h
  | cons c cs ih =>
    intro x xs h
    by_cases hc : p c = true
    · rw [List.dropWhile_cons_of_pos hc] at h
      exact ih x xs h
    · rw [List.dropWhile_cons_of_neg hc] at h
      injection h with h1 _
      subst h1
      simpa using hc

/-- Helper: a successful placeholder match decomposes its input exactly as
`"${output." ++ path ++ "}" ++ rest`. -/
theorem matchPlaceholderAt_some {cs path rest : List Char}
    (h : interpolator.matchPlaceholderAt cs = some (path, rest)) :
    cs = interpolator.placeholderPre ++ path ++ interpolator.rbrace :: rest ∧
    rest.length + 10 ≤ cs.length := by
  unfold interpolator.matchPlaceholderAt at h
  by_cases hp : interpolator.placeholderPre.isPrefixOf cs = true
  · rw [if_pos hp] at h
    obtain ⟨t, ht⟩ := List.isPrefixOf_iff_prefix.mp hp
    have hdrop : cs.drop interpolator.placeholderPre.length = t := by
      rw [← ht]; exact List.drop_left _ _
    rw [hdrop] at h
    dsimp only at h
    cases hd : t.dropWhile (fun c => c ≠ interpolator.rbrace) with
    | nil => rw [hd] at h; exact absurd h (by simp)
    | cons r rest1 =>
      rw [hd] at h
      dsimp only at h
      by_cases he : (t.takeWhile (fun c => c ≠ interpolator.rbrace)).isEmpty
      · rw [if_pos he] at h; exact absurd h (by simp)
      · rw [if_neg he] at h
        simp only [Option.some.injEq, Prod.mk.injEq] at h
        obtain ⟨hpath, hrest⟩ := h
        have hr : r = interpolator.rbrace := by
          have := dropWhile_head_not (fun c => c ≠ interpolator.rbrace) t r rest1 hd
          simpa using this
        have hsplit : t.takeWhile (fun c => c ≠ interpolator.rbrace) ++ (r :: rest1) = t := by
          rw [← hd]; exact List.takeWhile_append_dropWhile _ _
    -- rebuild cs from its pieces
        constructor
        · rw [← ht, ← hsplit, hpath, hrest, hr]
          simp
        · have h1 : cs.length = interpolator.placeholderPre.length + t.length := by
            rw [← ht]; simp
          have h2 : t.length =
              (t.takeWhile (fun c => c ≠ interpolator.rbrace)).length + (1 + rest1.length) := by
            conv_lhs => rw [← hsplit]
            simp
            omega
          have h3 : interpolator.placeholderPre.length = 9 := rfl
          rw [← hrest]
          omega
  · rw [if_neg hp] at h
    exact absurd h (by simp)

/-- Helper: `allUnresolved` holds of every suffix. -/
theorem allUnresolved_suffix (o : terraform.Outputs) :
    ∀ (l l' : List Char), l' <:+ l →
      interpolator.allUnresolved o l = true → interpolator.allUnresolved o l' = true := by
  intro l
  induction l with
  | nil =>
    intro l' hs h
    rw [List.suffix_nil.mp hs]
    exact h
  | cons c cs ih =>
    intro l' hs h
    rcases List.suffix_cons_iff.mp hs with heq | hs'
    · rw [heq] at *; exact h
    · have h2 : interpolator.allUnresolved o cs = true := by
        simp only [interpolator.allUnresolved, Bool.and_eq_true] at h
        exact h.2
      exact ih l' hs' h2

/-- Helper: with no placeholder anywhere, the replacement scan copies its
input unchanged, for any fuel. -/
theorem interpolateAux_no_placeholder (o : terraform.Outputs) :
    ∀ (fuel : Nat) (cs : List Char),
      interpolator.hasPlaceholderAux cs = false →
      interpolator.interpolateAux o fuel cs = cs := by
  intro fuel
  induction fuel with
  | zero => intro cs _; rfl
  | succ n ih =>
    intro cs h
    cases cs with
    | nil => rfl
    | cons c cs' =>
      simp only [interpolator.hasPlaceholderAux, Bool.or_eq_false_iff] at h
      have hm : interpolator.matchPlaceholderAt (c :: cs') = none :=
        Option.not_isSome_iff_eq_none.mp (by simp [h.1])
      simp only [interpolator.interpolateAux, hm]
      rw [ih cs' h.2]

/-- Helper: when every placeholder's path fails to resolve, the scan
reproduces its input character for character (fuel at least the length). -/
theorem interpolateAux_unresolved (o : terraform.Outputs) :
    ∀ (fuel : Nat) (cs : List Char), cs.length ≤ fuel →
      interpolator.allUnresolved o cs = true →
      interpolator.interpolateAux o fuel cs = cs := by
  intro fuel
  induction fuel with
  | zero =>
    intro cs _ _
    rfl
  | succ n ih =>
    intro cs hl hu
    cases cs with
    | nil => rfl
    | cons c cs' =>
      cases hm : interpolator.matchPlaceholderAt (c :: cs') with
      | none =>
        have hu' : interpolator.allUnresolved o cs' = true := by
          simp only [interpolator.allUnresolved, Bool.and_eq_true] at hu
          exact hu.2
        simp only [interpolator.interpolateAux, hm]
        rw [ih cs' (by simp at hl; omega) hu']
      | some pr =>
        rcases pr with ⟨path, rest⟩
        obtain ⟨hdec, hlen⟩ := matchPlaceholderAt_some hm
        have hfail : (!(terraform.GetOutputValue o (String.mk path)).isOk) = true := by
          simp only [interpolator.allUnresolved, hm, Bool.and_eq_true] at hu
          exact hu.1
        obtain ⟨e, he⟩ : ∃ e, terraform.GetOutputValue o (String.mk path) = .error e := by
          cases hg : terraform.GetOutputValue o (String.mk path) with
          | error e => exact ⟨e, rfl⟩
          | ok v => rw [hg] at hfail; simp [Except.isOk, Except.toBool] at hfail
        have hsuf : rest <:+ (c :: cs') := by
          refine ⟨interpolator.placeholderPre ++ path ++ [interpolator.rbrace], ?_⟩
          rw [hdec]
          simp
        have hurest := allUnresolved_suffix o (c :: cs') rest hsuf hu
        have hlrest : rest.length ≤ n := by
          simp only [List.length_cons] at hlen hl
          omega
        simp only [interpolator.interpolateAux, hm, he]
        rw [ih rest hlrest hurest, hdec]
        simp

/-- C5: the interpolator's no-crash policy.  A `${output.path}` placeholder
whose resolution fails is reproduced verbatim: concretely for a missing
key, an array index out of bounds, and descent into a non-map; generally,
a template all of whose placeholders fail to resolve is returned unchanged,
and a template with no placeholder at all is returned unchanged (hence
`Interpolate` is idempotent on such strings).  Failed and successful
placeholders are resolved independently. -/
theorem c5_interpolator_no_crash :
    (interpolator.Interpolate "$\x7boutput.missing\x7d" (some []) = "$\x7boutput.missing\x7d") ∧
    (∀ (t : String) (o : terraform.Outputs), interpolator.hasPlaceholder t = false →
      interpolator.Interpolate t o = t) ∧
    (∀ (t : String) (o : terraform.Outputs), interpolator.hasPlaceholder t = false →
      interpolator.Interpolate (interpolator.Interpolate t o) o = interpolator.Interpolate t o) ∧
    (∀ (t : String) (o : terraform.Outputs),
      interpolator.allUnresolved o t.data = true → interpolator.Interpolate t o = t) ∧
    (interpolator.Interpolate "$\x7boutput.arr[5]\x7d" (some [("arr", .arr [.int 1, .int 2])]) =
      "$\x7boutput.arr[5]\x7d") ∧
    (interpolator.Interpolate "$\x7boutput.a.b\x7d" (some [("a", .str "x")]) =
      "$\x7boutput.a.b\x7d") ∧
    (interpolator.Interpolate "$\x7boutput.a\x7d-$\x7boutput.missing\x7d"
        (some [("a", .str "x")]) = "x-$\x7boutput.missing\x7d") := by
  refine ⟨rfl, ?_, ?_, ?_, rfl, rfl, rfl⟩
  · intro t o h
    unfold interpolator.Interpolate
    rw [interpolateAux_no_placeholder o _ _ h]
  · intro t o h
    have h2 : interpolator.Interpolate t o = t := by
      unfold interpolator.Interpolate
      rw [interpolateAux_no_placeholder o _ _ h]
    rw [h2]
    exact h2
  · intro t o h
    unfold interpolator.Interpolate
    rw [interpolateAux_unresolved o _ _ (le_refl _) h]

/-- Witness for `c5_interpolator_no_crash`: the identity clauses applied at
a placeholder-free string and at a template whose only placeholder cannot
be resolved. -/
theorem c5_interpolator_no_crash_witness :
    interpolator.hasPlaceholder "no placeholders here" = false ∧
    interpolator.Interpolate "no placeholders here" (some []) = "no placeholders here" ∧
    interpolator.allUnresolved (some []) "$\x7boutput.z\x7d".data = true ∧
    interpolator.Interpolate "$\x7boutput.z\x7d" (some []) = "$\x7boutput.z\x7d" :=
  ⟨rfl, c5_interpolator_no_crash.2.1 "no placeholders here" (some []) rfl, rfl,
   c5_interpolator_no_crash.2.2.2.1 "$\x7boutput.z\x7d" (some []) rfl⟩
